import Mathlib

/-!
Verification of the gvu resource-allocation core against its specification.

The definitions below are shallow embeddings of the C++ sources:
* `gvu/Core/Managers/SubBufferManager.h` — the sub-buffer arena allocator,
* `gvu/Core/Managers/DescriptorPoolManager.h` — the descriptor pool manager,
* `gvu/Core/Cache/TextureCache.h` — the buffer memory cache,
* `gvu/Cache/DescriptorSetLayoutCache.h` and `gvu/Core/Cache/Cache_t.h` — the
  descriptor-set-layout object cache.

`VkDeviceSize`/`size_t` values are modelled as `Nat`; `std::shared_ptr`
use-count liveness is modelled by an explicit `free` flag (`use_count() == 1`
in the source means the manager is the only owner).
-/

namespace gvu

/-- `BufferInfo::_roundUp(numToRound, multiple)` from `Objects.h`:
`((numToRound + multiple - 1) / multiple) * multiple`. -/
def roundUp (numToRound multiple : Nat) : Nat :=
  ((numToRound + multiple - 1) / multiple) * multiple

/-- One entry of `SubBufferManager::m_allocations` (`struct SubBuffer`).
`free` models `use_count() == 1` on the stored `std::shared_ptr`: the list is
the only owner, i.e. the chunk was allocated but is no longer used. -/
structure SB where
  allocationOffset : Nat
  allocationSize   : Nat
  offset           : Nat
  size             : Nat
  alignment        : Nat
  free             : Bool
deriving DecidableEq

/-- The merge of `_mergeForward`: `A->m_allocationSize += B->allocationSize();
A->m_size = A->m_allocationSize;` (the other fields of `A` are untouched). -/
def mergeInto (A B : SB) : SB :=
  { A with allocationSize := A.allocationSize + B.allocationSize,
           size := A.allocationSize + B.allocationSize }

/-- `SubBufferManager::_mergeForward(a)` acting on the entry `A` and the list of
entries after it: while the next entry is free (`use_count() == 1`) and
offset-adjacent, absorb it into `A` and recurse. Returns the grown entry and
the remaining suffix. -/
def absorb (A : SB) : List SB → SB × List SB
  | [] => (A, [])
  | B :: rest =>
    if B.free && (A.allocationOffset + A.allocationSize == B.allocationOffset) then
      absorb (mergeInto A B) rest
    else
      (A, B :: rest)

/-- One step of the tail-to-head sweep of `mergeFreeAllocations`: at a free
entry, `_mergeForward` it into the already-processed suffix `acc`. -/
def mergeStep (E : SB) (acc : List SB) : List SB :=
  if E.free then
    let r := absorb E acc
    r.1 :: r.2
  else
    E :: acc

/-- `SubBufferManager::mergeFreeAllocations()`: walk the allocation list from
the tail backward, coalescing every run of adjacent free entries. -/
def mergeFreeAllocations (l : List SB) : List SB :=
  l.foldr mergeStep []

/-- Output of the `allocate` scan: the returned handle (if any), the resulting
allocation list, and the current value of the parameter `s`, which the C++
loop body reassigns (`s = alignedEnd - alignedBegin;`) at every free entry it
visits. -/
structure AllocOut where
  result      : Option SB
  allocations : List SB
  sReq        : Nat
deriving DecidableEq

/-- Fit test and split for one (merged) free entry `E2` with the processed
suffix `tail`, mirroring the body of the `if(E.use_count() == 1)` branch of
`SubBufferManager::allocate`: compute `alignedBegin`/`alignedEnd`/`lastByte`,
and when the entry is large enough, split it into the returned live piece and
a (possibly dropped) free remainder. `sReq` is the incoming value of the
mutated local `s`; the third output component is its new value
`alignedEnd - alignedBegin`. -/
def tryFit (chunk alignment sReq : Nat) (E2 : SB) (tail : List SB) : AllocOut :=
  let firstByte := E2.allocationOffset
  let alignedBegin := roundUp firstByte alignment
  let alignedEnd := roundUp (alignedBegin + sReq) alignment
  let lastByte := roundUp alignedEnd chunk
  let allocationSize := lastByte - firstByte
  let s2 := alignedEnd - alignedBegin
  if allocationSize ≤ E2.allocationSize then
    let B : SB := ⟨firstByte, allocationSize, alignedBegin, s2, alignment, false⟩
    let E3 : SB := ⟨firstByte + allocationSize, E2.allocationSize - allocationSize,
                    firstByte + allocationSize, E2.allocationSize - allocationSize,
                    1, E2.free⟩
    if E2.allocationSize - allocationSize == 0 then
      ⟨some B, B :: tail, s2⟩
    else
      ⟨some B, B :: E3 :: tail, s2⟩
  else
    ⟨none, E2 :: tail, s2⟩

/-- One iteration of the backward `allocate` scan at entry `E`, given the
outcome `r` of scanning the entries after `E`: if an allocation already
happened further right, pass it through; otherwise, at a free entry, merge it
forward into the processed suffix and try to fit the request there. -/
def allocStep (chunk alignment : Nat) (E : SB) : AllocOut → AllocOut
  | ⟨some b, acc, sReq⟩ => ⟨some b, E :: acc, sReq⟩
  | ⟨none, acc, sReq⟩ =>
    if E.free then
      let m := absorb E acc
      tryFit chunk alignment sReq m.1 m.2
    else
      ⟨none, E :: acc, sReq⟩

/-- The backward scan of `SubBufferManager::allocate(s, alignment)`.
`allocateGo chunk alignment s l` processes `l` tail first (the C++ loop starts
at `std::prev(m_allocations.end())` and walks toward `begin()`), threading the
mutated local `s` from right to left. -/
def allocateGo (chunk alignment : Nat) : Nat → List SB → AllocOut
  | s, [] => ⟨none, [], s⟩
  | s, E :: rest => allocStep chunk alignment E (allocateGo chunk alignment s rest)

/-- `SubBufferManager::allocate(s, alignment)` with chunk size
`m_allocationChunkSize`: returns the allocated handle (`none` models the empty
`SubBufferHandle` returned on exhaustion) and the updated allocation list. -/
def allocate (chunk s alignment : Nat) (l : List SB) : Option SB × List SB :=
  let r := allocateGo chunk alignment s l
  (r.result, r.allocations)

/-- Dropping the caller's `SubBufferHandle` for the `i`-th entry: the list
becomes the only owner, so `use_count()` falls back to 1. -/
def setFree : List SB → Nat → List SB
  | [], _ => []
  | E :: rest, 0 => { E with free := true } :: rest
  | E :: rest, i + 1 => E :: setFree rest i

/-- `SubBufferManager::setBuffer(h, chunk)`: a single free entry spanning
`[0, bufferSize)` with `offset = 0`, `size = bufferSize`, `alignment = 1`. -/
def initArena (bufferSize : Nat) : List SB :=
  [⟨0, bufferSize, 0, bufferSize, 1, true⟩]

/-- The operations a client can perform on the arena after initialisation. -/
inductive ArenaOp where
  | alloc (s alignment : Nat)
  | drop (i : Nat)
  | merge
deriving DecidableEq

/-- Effect of one client operation on the allocation list. -/
def arenaStep (chunk : Nat) (l : List SB) : ArenaOp → List SB
  | .alloc s alignment => (allocate chunk s alignment l).2
  | .drop i => setFree l i
  | .merge => mergeFreeAllocations l

/-- The allocation list reached from `setBuffer` by a sequence of operations. -/
def runArena (chunk bufferSize : Nat) (ops : List ArenaOp) : List SB :=
  ops.foldl (arenaStep chunk) (initArena bufferSize)

/-- `tilesFrom bufferSize o l` states that the entries of `l`, in list order,
exactly tile `[o, bufferSize)`: the first entry starts at `o`, each entry ends
where the next begins, and the last entry ends at `bufferSize`. -/
def tilesFrom (bufferSize : Nat) : Nat → List SB → Bool
  | o, [] => o == bufferSize
  | o, E :: rest => (E.allocationOffset == o) && tilesFrom bufferSize (o + E.allocationSize) rest

theorem tiles_absorb (Bsz : Nat) : ∀ (acc : List SB) (A : SB) (o : Nat),
    tilesFrom Bsz o (A :: acc) = true →
    tilesFrom Bsz o ((absorb A acc).1 :: (absorb A acc).2) = true := by
  intro acc
  induction acc with
  | nil => intro A o h; simpa [absorb] using h
  | cons B rest ih =>
    intro A o h
    by_cases hc : (B.free && (A.allocationOffset + A.allocationSize == B.allocationOffset)) = true
    · rw [absorb, if_pos hc]
      apply ih
      simp only [tilesFrom, Bool.and_eq_true, beq_iff_eq] at h ⊢
      obtain ⟨h1, _, h3⟩ := h
      refine ⟨by simpa [mergeInto] using h1, ?_⟩
      simpa [mergeInto, ← Nat.add_assoc] using h3
    · rw [absorb, if_neg hc]
      exact h

theorem tiles_mergeStep (Bsz o : Nat) (E : SB) (acc : List SB)
    (h : tilesFrom Bsz o (E :: acc) = true) :
    tilesFrom Bsz o (mergeStep E acc) = true := by
  unfold mergeStep
  by_cases hf : E.free = true
  · simpa [hf] using tiles_absorb Bsz acc E o h
  · simpa [hf] using h

theorem tiles_mergeFreeAllocations (Bsz : Nat) : ∀ (l : List SB) (o : Nat),
    tilesFrom Bsz o l = true → tilesFrom Bsz o (mergeFreeAllocations l) = true := by
  intro l
  induction l with
  | nil => intro o h; simpa [mergeFreeAllocations] using h
  | cons E rest ih =>
    intro o h
    simp only [tilesFrom, Bool.and_eq_true] at h
    obtain ⟨h1, h2⟩ := h
    have hrec := ih (o + E.allocationSize) h2
    have : tilesFrom Bsz o (E :: mergeFreeAllocations rest) = true := by
      simp only [tilesFrom, Bool.and_eq_true]
      exact ⟨h1, hrec⟩
    simpa [mergeFreeAllocations] using tiles_mergeStep Bsz o E (mergeFreeAllocations rest) this

theorem tiles_tryFit (Bsz chunk alignment sReq o : Nat) (E2 : SB) (tail : List SB)
    (h : tilesFrom Bsz o (E2 :: tail) = true) :
    tilesFrom Bsz o (tryFit chunk alignment sReq E2 tail).allocations = true := by
  simp only [tilesFrom, Bool.and_eq_true, beq_iff_eq] at h
  obtain ⟨h1, h2⟩ := h
  simp only [tryFit]
  split_ifs with hfit hrem
  · simp only [beq_iff_eq] at hrem
    have hsz : roundUp (roundUp (roundUp E2.allocationOffset alignment + sReq) alignment) chunk -
        E2.allocationOffset = E2.allocationSize := by omega
    simp only [tilesFrom, Bool.and_eq_true, beq_iff_eq, hsz]
    exact ⟨h1, h2⟩
  · simp only [beq_iff_eq] at hrem
    simp only [tilesFrom, Bool.and_eq_true, beq_iff_eq]
    refine ⟨h1, by omega, ?_⟩
    have hidx : o +
        (roundUp (roundUp (roundUp E2.allocationOffset alignment + sReq) alignment) chunk -
          E2.allocationOffset) +
        (E2.allocationSize -
          (roundUp (roundUp (roundUp E2.allocationOffset alignment + sReq) alignment) chunk -
            E2.allocationOffset)) = o + E2.allocationSize := by omega
    rw [hidx]
    exact h2
  · simp only [tilesFrom, Bool.and_eq_true, beq_iff_eq]
    exact ⟨h1, h2⟩

theorem tiles_allocStep (Bsz chunk alignment o : Nat) (E : SB) (r : AllocOut)
    (h : tilesFrom Bsz o (E :: r.allocations) = true) :
    tilesFrom Bsz o (allocStep chunk alignment E r).allocations = true := by
  obtain ⟨res, acc, sr⟩ := r
  cases res with
  | some b => simpa [allocStep] using h
  | none =>
    by_cases hf : E.free = true
    · simp only [allocStep, hf, if_true]
      exact tiles_tryFit Bsz chunk alignment sr o _ _ (tiles_absorb Bsz acc E o h)
    · simpa [allocStep, hf] using h

theorem tiles_allocateGo (Bsz chunk alignment : Nat) : ∀ (l : List SB) (s o : Nat),
    tilesFrom Bsz o l = true →
    tilesFrom Bsz o (allocateGo chunk alignment s l).allocations = true := by
  intro l
  induction l with
  | nil => intro s o h; simpa [allocateGo] using h
  | cons E rest ih =>
    intro s o h
    simp only [tilesFrom, Bool.and_eq_true] at h
    obtain ⟨h1, h2⟩ := h
    have hrec := ih s (o + E.allocationSize) h2
    have hcons : tilesFrom Bsz o (E :: (allocateGo chunk alignment s rest).allocations) = true := by
      simp only [tilesFrom, Bool.and_eq_true]
      exact ⟨h1, hrec⟩
    simpa [allocateGo] using
      tiles_allocStep Bsz chunk alignment o E (allocateGo chunk alignment s rest) hcons

theorem tiles_setFree (Bsz : Nat) : ∀ (l : List SB) (i o : Nat),
    tilesFrom Bsz o l = true → tilesFrom Bsz o (setFree l i) = true := by
  intro l
  induction l with
  | nil => intro i o h; simpa [setFree] using h
  | cons E rest ih =>
    intro i o h
    cases i with
    | zero => simpa [setFree, tilesFrom] using h
    | succ j =>
      simp only [tilesFrom, Bool.and_eq_true] at h
      simp only [setFree, tilesFrom, Bool.and_eq_true]
      exact ⟨h.1, ih j (o + E.allocationSize) h.2⟩

theorem mergeStep_ne_nil (E : SB) (acc : List SB) : mergeStep E acc ≠ [] := by
  unfold mergeStep
  by_cases hf : E.free = true <;> simp [hf]

theorem mergeFreeAllocations_ne_nil (l : List SB) (h : l ≠ []) :
    mergeFreeAllocations l ≠ [] := by
  cases l with
  | nil => exact absurd rfl h
  | cons E rest => exact mergeStep_ne_nil E (mergeFreeAllocations rest)

theorem tryFit_allocations_ne_nil (chunk alignment sReq : Nat) (E2 : SB) (tail : List SB) :
    (tryFit chunk alignment sReq E2 tail).allocations ≠ [] := by
  unfold tryFit
  by_cases hfit : roundUp (roundUp (roundUp E2.allocationOffset alignment + sReq) alignment) chunk -
      E2.allocationOffset ≤ E2.allocationSize
  · by_cases hrem : E2.allocationSize -
        (roundUp (roundUp (roundUp E2.allocationOffset alignment + sReq) alignment) chunk -
          E2.allocationOffset) = 0 <;> simp [hfit, hrem]
  · simp [hfit]

theorem allocStep_allocations_ne_nil (chunk alignment : Nat) (E : SB) (r : AllocOut) :
    (allocStep chunk alignment E r).allocations ≠ [] := by
  obtain ⟨res, acc, sr⟩ := r
  cases res with
  | some b => simp [allocStep]
  | none =>
    by_cases hf : E.free = true
    · simp only [allocStep, hf, if_true]
      exact tryFit_allocations_ne_nil chunk alignment sr _ _
    · simp [allocStep, hf]

theorem allocateGo_allocations_ne_nil (chunk alignment s : Nat) (l : List SB) (h : l ≠ []) :
    (allocateGo chunk alignment s l).allocations ≠ [] := by
  cases l with
  | nil => exact absurd rfl h
  | cons E rest => exact allocStep_allocations_ne_nil chunk alignment E _

theorem setFree_ne_nil (l : List SB) (i : Nat) (h : l ≠ []) : setFree l i ≠ [] := by
  cases l with
  | nil => exact absurd rfl h
  | cons E rest => cases i <;> simp [setFree]

theorem tilesFrom_sum (Bsz : Nat) : ∀ (l : List SB) (o : Nat), tilesFrom Bsz o l = true →
    o + (l.map SB.allocationSize).sum = Bsz := by
  intro l
  induction l with
  | nil => intro o h; simp only [tilesFrom, beq_iff_eq] at h; simpa using h
  | cons E rest ih =>
    intro o h
    simp only [tilesFrom, Bool.and_eq_true] at h
    have := ih (o + E.allocationSize) h.2
    simp only [List.map_cons, List.sum_cons]
    omega

/-- C2: at every state of the `SubBufferManager` reachable from `setBuffer` by
any sequence of `allocate`, handle-release, and `mergeFreeAllocations` calls,
the allocation list is nonempty and exactly tiles `[0, bufferSize)`
(`tilesFrom` demands: the first entry's `allocationOffset` is 0, each entry's
`allocationOffset + allocationSize` equals the next entry's
`allocationOffset`, and the last entry ends at `bufferSize` — which also
forces the entries to be offset-ordered), and the `allocationSize`s sum to
`bufferSize`. -/
theorem C2_arena_tiling (chunk bufferSize : Nat) (ops : List ArenaOp) :
    runArena chunk bufferSize ops ≠ [] ∧
    tilesFrom bufferSize 0 (runArena chunk bufferSize ops) = true ∧
    ((runArena chunk bufferSize ops).map SB.allocationSize).sum = bufferSize := by
  have main : ∀ (ops : List ArenaOp) (l : List SB), l ≠ [] →
      tilesFrom bufferSize 0 l = true →
      (ops.foldl (arenaStep chunk) l ≠ [] ∧
        tilesFrom bufferSize 0 (ops.foldl (arenaStep chunk) l) = true) := by
    intro ops
    induction ops with
    | nil => intro l h1 h2; exact ⟨h1, h2⟩
    | cons op rest ih =>
      intro l h1 h2
      simp only [List.foldl_cons]
      apply ih
      · cases op with
        | alloc s alignment => exact allocateGo_allocations_ne_nil chunk alignment s l h1
        | drop i => exact setFree_ne_nil l i h1
        | merge => exact mergeFreeAllocations_ne_nil l h1
      · cases op with
        | alloc s alignment => exact tiles_allocateGo bufferSize chunk alignment l s 0 h2
        | drop i => exact tiles_setFree bufferSize l i 0 h2
        | merge => exact tiles_mergeFreeAllocations bufferSize l 0 h2
  have hinit : tilesFrom bufferSize 0 (initArena bufferSize) = true := by
    simp [initArena, tilesFrom]
  have h := main ops (initArena bufferSize) (by simp [initArena]) hinit
  refine ⟨h.1, h.2, ?_⟩
  have := tilesFrom_sum bufferSize (runArena chunk bufferSize ops) 0 h.2
  simpa using this

theorem tryFit_result_none (chunk alignment sReq : Nat) (E2 : SB) (tail : List SB)
    (h : (tryFit chunk alignment sReq E2 tail).result = none) :
    (tryFit chunk alignment sReq E2 tail).allocations = E2 :: tail := by
  simp only [tryFit] at h ⊢
  split_ifs at h ⊢
  rfl

theorem allocStep_result_none (chunk alignment : Nat) (E : SB) (r : AllocOut)
    (h : (allocStep chunk alignment E r).result = none) :
    r.result = none ∧
      (allocStep chunk alignment E r).allocations = mergeStep E r.allocations := by
  obtain ⟨res, acc, sr⟩ := r
  cases res with
  | some b =>
    simp only [allocStep] at h
    exact Option.noConfusion h
  | none =>
    refine ⟨rfl, ?_⟩
    by_cases hf : E.free = true
    · simp only [allocStep, hf, if_true] at h
      simp only [allocStep, hf, if_true, mergeStep]
      exact tryFit_result_none _ _ _ _ _ h
    · simp [allocStep, hf, mergeStep]

theorem allocateGo_result_none (chunk alignment : Nat) : ∀ (l : List SB) (s : Nat),
    (allocateGo chunk alignment s l).result = none →
    (allocateGo chunk alignment s l).allocations = mergeFreeAllocations l := by
  intro l
  induction l with
  | nil => intro s _; rfl
  | cons E rest ih =>
    intro s h
    have hstep := allocStep_result_none chunk alignment E (allocateGo chunk alignment s rest)
      (by simpa [allocateGo] using h)
    have : (allocateGo chunk alignment s (E :: rest)).allocations =
        mergeStep E (allocateGo chunk alignment s rest).allocations := by
      simpa [allocateGo] using hstep.2
    rw [this, ih s hstep.1]
    rfl

/-- C6 counterexample: on the arena state with two adjacent free 256-byte
entries, the failing call `allocate(1024, 1)` (chunk size 256) returns the
null handle but does NOT leave the allocation list unchanged: the lazy
`_mergeForward` on the scan path fuses the two free entries. This refutes the
claim that a call returning null mutates nothing. -/
theorem C6_counterexample :
    (allocate 256 1024 1
        [SB.mk 0 256 0 256 1 true, SB.mk 256 256 256 256 1 true]).1 = none ∧
      (allocate 256 1024 1
          [SB.mk 0 256 0 256 1 true, SB.mk 256 256 256 256 1 true]).2 ≠
        [SB.mk 0 256 0 256 1 true, SB.mk 256 256 256 256 1 true] := by
  decide

/-- C6 (amended): whenever `SubBufferManager::allocate(s, alignment)` fails
(returns the empty handle rather than raising an error), no entry is created,
split, or resized for an allocation; the only mutation the failed call makes
is the lazy forward-coalescing performed during the scan — the resulting
allocation list is exactly what a `mergeFreeAllocations()` call on the
pre-state produces. -/
theorem C6_failed_alloc_amended (chunk s alignment : Nat) (l : List SB)
    (h : (allocate chunk s alignment l).1 = none) :
    (allocate chunk s alignment l).2 = mergeFreeAllocations l :=
  allocateGo_result_none chunk alignment l s h

/-- C6 witness: the amended theorem applied to the counterexample state. -/
theorem C6_witness :
    (allocate 256 1024 1
        [SB.mk 0 256 0 256 1 true, SB.mk 256 256 256 256 1 true]).2 =
      mergeFreeAllocations [SB.mk 0 256 0 256 1 true, SB.mk 256 256 256 256 1 true] :=
  C6_failed_alloc_amended 256 1024 1
    [SB.mk 0 256 0 256 1 true, SB.mk 256 256 256 256 1 true] (by decide)

theorem le_roundUp (n m : Nat) (hm : 1 ≤ m) : n ≤ roundUp n m := by
  unfold roundUp
  rw [Nat.mul_comm]
  have h1 := Nat.div_add_mod (n + m - 1) m
  have h2 : (n + m - 1) % m < m := Nat.mod_lt _ (by omega)
  omega

theorem roundUp_mod (n m : Nat) : roundUp n m % m = 0 := by
  unfold roundUp
  exact Nat.mul_mod_left _ _

theorem tryFit_sReq_ge (chunk alignment sReq : Nat) (E2 : SB) (tail : List SB)
    (hal : 1 ≤ alignment) :
    sReq ≤ (tryFit chunk alignment sReq E2 tail).sReq := by
  have hle := le_roundUp (roundUp E2.allocationOffset alignment + sReq) alignment hal
  simp only [tryFit]
  split_ifs <;> (simp only []; omega)

theorem allocStep_sReq_ge (chunk alignment : Nat) (E : SB) (r : AllocOut)
    (hal : 1 ≤ alignment) :
    r.sReq ≤ (allocStep chunk alignment E r).sReq := by
  obtain ⟨res, acc, sr⟩ := r
  cases res with
  | some b => simp [allocStep]
  | none =>
    by_cases hf : E.free = true
    · simp only [allocStep, hf, if_true]
      exact tryFit_sReq_ge chunk alignment sr _ _ hal
    · simp [allocStep, hf]

theorem allocateGo_sReq_ge (chunk alignment : Nat) (hal : 1 ≤ alignment) :
    ∀ (l : List SB) (s : Nat), s ≤ (allocateGo chunk alignment s l).sReq := by
  intro l
  induction l with
  | nil => intro s; simp [allocateGo]
  | cons E rest ih =>
    intro s
    have h1 := ih s
    have h2 := allocStep_sReq_ge chunk alignment E (allocateGo chunk alignment s rest) hal
    calc s ≤ (allocateGo chunk alignment s rest).sReq := h1
      _ ≤ _ := h2

theorem tryFit_result_some (chunk alignment sReq : Nat) (E2 : SB) (tail : List SB) (b : SB)
    (hal : 1 ≤ alignment) (hch : 1 ≤ chunk)
    (h : (tryFit chunk alignment sReq E2 tail).result = some b) :
    b.offset % alignment = 0 ∧ sReq ≤ b.size ∧ b.alignment = alignment ∧
      b.allocationOffset ≤ b.offset ∧
      b.offset + b.size ≤ b.allocationOffset + b.allocationSize := by
  have hofs := le_roundUp E2.allocationOffset alignment hal
  have hend := le_roundUp (roundUp E2.allocationOffset alignment + sReq) alignment hal
  have hlast := le_roundUp (roundUp (roundUp E2.allocationOffset alignment + sReq) alignment)
    chunk hch
  have hmod := roundUp_mod E2.allocationOffset alignment
  simp only [tryFit] at h
  split_ifs at h with hfit hrem
  · have hb := Option.some.inj h
    subst hb
    refine ⟨hmod, ?_, rfl, ?_, ?_⟩ <;> (dsimp only; omega)
  · have hb := Option.some.inj h
    subst hb
    refine ⟨hmod, ?_, rfl, ?_, ?_⟩ <;> (dsimp only; omega)

theorem allocateGo_result_some (chunk alignment : Nat) (hal : 1 ≤ alignment) (hch : 1 ≤ chunk) :
    ∀ (l : List SB) (s : Nat) (b : SB),
    (allocateGo chunk alignment s l).result = some b →
    b.offset % alignment = 0 ∧ s ≤ b.size ∧ b.alignment = alignment ∧
      b.allocationOffset ≤ b.offset ∧
      b.offset + b.size ≤ b.allocationOffset + b.allocationSize := by
  intro l
  induction l with
  | nil =>
    intro s b h
    exact Option.noConfusion h
  | cons E rest ih =>
    intro s b h
    have hs := allocateGo_sReq_ge chunk alignment hal rest s
    rcases hr : allocateGo chunk alignment s rest with ⟨res, acc, sr⟩
    rw [hr] at hs
    dsimp only at hs
    simp only [allocateGo] at h
    rw [hr] at h
    cases res with
    | some b0 =>
      simp only [allocStep] at h
      have hb : b0 = b := Option.some.inj h
      subst hb
      exact ih s b0 (by rw [hr])
    | none =>
      by_cases hf : E.free = true
      · simp only [allocStep, hf, if_true] at h
        have := tryFit_result_some chunk alignment sr _ _ b hal hch h
        exact ⟨this.1, by omega, this.2.2.1, this.2.2.2.1, this.2.2.2.2⟩
      · simp only [allocStep, hf, if_false] at h
        exact Option.noConfusion h

/-- C9: for every successful `SubBufferManager::allocate(size, alignment)`
call (any state, any alignment ≥ 1, any chunk size ≥ 1) returning handle `b`:
`b.offset() % alignment == 0`, `b.size() >= size`, and the usable range
`[offset, offset + size)` is contained in the reserved range
`[allocationOffset, allocationOffset + allocationSize)`. -/
theorem C9_alignment_law (chunk s alignment : Nat) (l : List SB) (b : SB) (l2 : List SB)
    (hal : 1 ≤ alignment) (hch : 1 ≤ chunk)
    (h : allocate chunk s alignment l = (some b, l2)) :
    b.offset % alignment = 0 ∧ s ≤ b.size ∧
      b.allocationOffset ≤ b.offset ∧
      b.offset + b.size ≤ b.allocationOffset + b.allocationSize := by
  have hres : (allocateGo chunk alignment s l).result = some b := by
    have := congrArg Prod.fst h
    simpa [allocate] using this
  have := allocateGo_result_some chunk alignment hal hch l s b hres
  exact ⟨this.1, this.2.1, this.2.2.2.1, this.2.2.2.2⟩

/-- C9 witness: the specification's own concrete scenario
`createTestCase(1024, 0, 1024, 0, 1)` then `allocate(15, 32)` with chunk size
256 yields the handle with `offset = 0`, `size = 32`, `allocationSize = 256`,
and the alignment law holds there. -/
theorem C9_witness :
    1 ≤ 32 ∧ 1 ≤ 256 ∧
      ((SB.mk 0 256 0 32 32 false).offset % 32 = 0 ∧ 15 ≤ (SB.mk 0 256 0 32 32 false).size ∧
        (SB.mk 0 256 0 32 32 false).allocationOffset ≤ (SB.mk 0 256 0 32 32 false).offset ∧
        (SB.mk 0 256 0 32 32 false).offset + (SB.mk 0 256 0 32 32 false).size ≤
          (SB.mk 0 256 0 32 32 false).allocationOffset +
            (SB.mk 0 256 0 32 32 false).allocationSize) :=
  ⟨by decide, by decide,
    C9_alignment_law 256 15 32 (initArena 1024) (SB.mk 0 256 0 32 32 false)
      [SB.mk 0 256 0 32 32 false, SB.mk 256 768 256 768 1 true]
      (by decide) (by decide) (by decide)⟩

/-- `SubBufferManager::allocateTyped<T>(count)`:
`allocate(sizeof(T) * count, sizeof(T))` — the source passes `sizeof(T)`, not
`alignof(T)`, as the alignment argument. `sizeofT` stands for `sizeof(T)`. -/
def allocateTyped (chunk sizeofT count : Nat) (l : List SB) : Option SB × List SB :=
  allocate chunk (sizeofT * count) sizeofT l

theorem tryFit_result_some_offset (chunk alignment sReq : Nat) (E2 : SB) (tail : List SB)
    (b : SB) (h : (tryFit chunk alignment sReq E2 tail).result = some b) :
    b.offset % alignment = 0 := by
  simp only [tryFit] at h
  split_ifs at h
  · have hb := Option.some.inj h
    subst hb
    exact roundUp_mod E2.allocationOffset alignment
  · have hb := Option.some.inj h
    subst hb
    exact roundUp_mod E2.allocationOffset alignment

theorem allocateGo_result_some_offset (chunk alignment : Nat) : ∀ (l : List SB) (s : Nat)
    (b : SB), (allocateGo chunk alignment s l).result = some b →
    b.offset % alignment = 0 := by
  intro l
  induction l with
  | nil => intro s b h; exact Option.noConfusion h
  | cons E rest ih =>
    intro s b h
    rcases hr : allocateGo chunk alignment s rest with ⟨res, acc, sr⟩
    simp only [allocateGo] at h
    rw [hr] at h
    cases res with
    | some b0 =>
      simp only [allocStep] at h
      have hb : b0 = b := Option.some.inj h
      subst hb
      exact ih s b0 (by rw [hr])
    | none =>
      by_cases hf : E.free = true
      · simp only [allocStep, hf, if_true] at h
        exact tryFit_result_some_offset chunk alignment sr _ _ b h
      · simp only [allocStep, hf, if_false] at h
        exact Option.noConfusion h

/-- C4 counterexample: `allocateTyped<T>(count)` does NOT perform the call
`allocate(sizeof(T) * count, alignof(T))`. For `T = std::array<float, 3>`
(`sizeof(T) = 12`, `alignof(T) = 4`, the type used in the repository's own
unit test) and an arena state whose free entry starts at the 4-byte-aligned
but not 12-byte-aligned offset 4 (constructible via `createTestCase`), the
handle returned by the source code (`allocate(12, 12)`, offset 12) differs
from the handle the claimed call `allocate(12, 4)` would return (offset 4). -/
theorem C4_counterexample :
    allocateTyped 256 12 1 [SB.mk 4 1020 4 1020 1 true] ≠
      allocate 256 (12 * 1) 4 [SB.mk 4 1020 4 1020 1 true] := by
  decide

/-- C4 (amended): `allocateTyped<T>(count)` performs exactly the call
`allocate(sizeof(T) * count, sizeof(T))` — alignment `sizeof(T)`, not
`alignof(T)` — and whenever that allocation succeeds the returned sub-buffer
offset is a multiple of `sizeof(T)` (the internal assertion
`d->offset() % sizeof(T) == 0` never fails on a successful allocation). -/
theorem C4_allocateTyped_amended (chunk sizeofT count : Nat) (l : List SB) :
    allocateTyped chunk sizeofT count l = allocate chunk (sizeofT * count) sizeofT l ∧
      ∀ (b : SB) (l2 : List SB), allocateTyped chunk sizeofT count l = (some b, l2) →
        b.offset % sizeofT = 0 := by
  refine ⟨rfl, ?_⟩
  intro b l2 h
  have hres : (allocateGo chunk sizeofT (sizeofT * count) l).result = some b := by
    have := congrArg Prod.fst h
    simpa [allocateTyped, allocate] using this
  exact allocateGo_result_some_offset chunk sizeofT l (sizeofT * count) b hres

/-- C4 witness: the amended theorem at `sizeof(T) = 12`, `count = 1` on the
counterexample arena state, where the allocation succeeds with offset 12. -/
theorem C4_witness :
    allocateTyped 256 12 1 [SB.mk 4 1020 4 1020 1 true] =
        allocate 256 (12 * 1) 12 [SB.mk 4 1020 4 1020 1 true] ∧
      (SB.mk 4 252 12 12 12 false).offset % 12 = 0 :=
  ⟨(C4_allocateTyped_amended 256 12 1 [SB.mk 4 1020 4 1020 1 true]).1,
    (C4_allocateTyped_amended 256 12 1 [SB.mk 4 1020 4 1020 1 true]).2
      (SB.mk 4 252 12 12 12 false)
      [SB.mk 4 252 12 12 12 false, SB.mk 256 768 256 768 1 true] (by decide)⟩

/-! ## DescriptorPoolManager (`gvu/Core/Managers/DescriptorPoolManager.h`)

Descriptor pools, sets and the backend are modelled as follows: pool handles
and set handles are `Nat`s drawn from fresh counters (`nextPool`, `nextSet`);
the `std::unordered_set` bookkeeping becomes lists with membership-checked
insertion; `m_poolInfos` (an `unordered_map` iterated by the allocation scan)
is determinised as a list in pool-creation order; `m_setToPool` is an
association list. `vkCreateDescriptorPool` is modelled as always succeeding
(its failure path throws before any state is mutated);
`vkAllocateDescriptorSets` succeeds or fails according to an oracle
`okAlloc : pool handle → Bool`, modelling the backend verdict
(`VK_SUCCESS` versus `VK_ERROR_FRAGMENTED_POOL` / `VK_ERROR_OUT_OF_POOL_MEMORY`
/ other, all of which the source maps to the same `throw`). -/

/-- One entry of `m_poolInfos` (`struct PoolInfo`). -/
structure PoolInfo where
  pool          : Nat
  maxSets       : Nat
  allocatedSets : List Nat
  returnedSets  : List Nat
deriving DecidableEq

/-- The state of a `DescriptorPoolManager`. `maxSets` is
`m_createInfo.maxSets` (set once by `init`). -/
structure DPM where
  pools     : List PoolInfo
  setToPool : List (Nat × Nat)
  maxSets   : Nat
  nextSet   : Nat
  nextPool  : Nat
deriving DecidableEq

/-- `std::unordered_set::insert`: no-op when the element is present. -/
def setInsert (s : List Nat) (x : Nat) : List Nat :=
  if x ∈ s then s else x :: s

/-- `m_setToPool[k] = v` on an `unordered_map`: replace or append. -/
def alistSet : List (Nat × Nat) → Nat → Nat → List (Nat × Nat)
  | [], k, v => [(k, v)]
  | (a, b) :: rest, k, v =>
    if a == k then (k, v) :: rest else (a, b) :: alistSet rest k v

/-- `m_setToPool.find(k)` / `.at(k)`. -/
def alistGet : List (Nat × Nat) → Nat → Option Nat
  | [], _ => none
  | (a, b) :: rest, k => if a == k then some b else alistGet rest k

/-- `m_setToPool.erase(k)`: removes the (unique) entry with key `k`. -/
def alistErase : List (Nat × Nat) → Nat → List (Nat × Nat)
  | [], _ => []
  | (a, b) :: rest, k => if a == k then rest else (a, b) :: alistErase rest k

/-- Apply `f` to the pool entry with handle `p` (keys are unique). -/
def updatePool (ps : List PoolInfo) (p : Nat) (f : PoolInfo → PoolInfo) : List PoolInfo :=
  ps.map (fun P => if P.pool == p then f P else P)

/-- `DescriptorPoolManager::createNewPool()`: `vkCreateDescriptorPool` (always
succeeds in the model) and a fresh `PoolInfo` with `maxSets` from
`m_createInfo` and cleared bookkeeping. -/
def createNewPool (d : DPM) : DPM :=
  { d with pools := d.pools ++ [⟨d.nextPool, d.maxSets, [], []⟩],
           nextPool := d.nextPool + 1 }

/-- Result of one pass of the pool loop in `allocateDescriptorSet`. -/
inductive ScanOut where
  /-- A pool with spare bookkeeping capacity was found and the backend
  allocation succeeded: the new set, its pool, and the updated pool list. -/
  | success (set pool : Nat) (pools : List PoolInfo)
  /-- A pool with spare capacity was found but `vkAllocateDescriptorSets`
  failed: the source's `switch` falls through to
  `throw std::runtime_error("Unrecoverable error")`. -/
  | err
  /-- The loop fell through: no pool has `allocatedSets.size() < maxSets`. -/
  | noRoom
deriving DecidableEq

/-- The `for(auto & [p, i] : m_poolInfos)` loop body of
`allocateDescriptorSet`: at the first pool with
`allocatedSets.size() < maxSets`, attempt the backend allocation. -/
def scanPools (okAlloc : Nat → Bool) (freshSet : Nat) : List PoolInfo → ScanOut
  | [] => .noRoom
  | P :: rest =>
    if P.allocatedSets.length < P.maxSets then
      if okAlloc P.pool then
        .success freshSet P.pool
          ({ P with allocatedSets := setInsert P.allocatedSets freshSet } :: rest)
      else
        .err
    else
      match scanPools okAlloc freshSet rest with
      | .success s p ps => .success s p (P :: ps)
      | .err => .err
      | .noRoom => .noRoom

/-- Outcome of `allocateDescriptorSet`: a set handle, or the thrown
`std::runtime_error`. -/
inductive DPMResult where
  | ok (set : Nat)
  | fatal
deriving DecidableEq

/-- `DescriptorPoolManager::allocateDescriptorSet()`: scan the pools; on
success record the set; when no pool has spare capacity, `createNewPool()`
and re-attempt (the source does this by recursion — expanded one level here,
which is exact whenever `maxSets ≥ 1`, since the fresh pool then has spare
capacity; for `maxSets = 0` the source would recurse forever, modelled as
`fatal`). -/
def allocateDescriptorSet (okAlloc : Nat → Bool) (d : DPM) : DPMResult × DPM :=
  match scanPools okAlloc d.nextSet d.pools with
  | .success s p ps =>
    (.ok s, { d with pools := ps, nextSet := d.nextSet + 1,
                     setToPool := alistSet d.setToPool s p })
  | .err => (.fatal, d)
  | .noRoom =>
    let d2 := createNewPool d
    match scanPools okAlloc d2.nextSet d2.pools with
    | .success s p ps =>
      (.ok s, { d2 with pools := ps, nextSet := d2.nextSet + 1,
                        setToPool := alistSet d2.setToPool s p })
    | .err => (.fatal, d2)
    | .noRoom => (.fatal, d2)

/-- `DescriptorPoolManager::resetPool(p)`: erase every returned set from
`m_setToPool`, `vkResetDescriptorPool` (backend), and clear both bookkeeping
sets. -/
def resetPool (d : DPM) (p : Nat) : DPM :=
  let returned := (((d.pools.find? (fun P => P.pool == p)).map PoolInfo.returnedSets).getD [])
  let clear : PoolInfo → PoolInfo := fun P => { P with allocatedSets := [], returnedSets := [] }
  { d with setToPool := returned.foldl alistErase d.setToPool,
           pools := updatePool d.pools p clear }

/-- `DescriptorPoolManager::releaseToPool(set)`: look up the owning pool
(`m_setToPool.at` — throws on a foreign handle; modelled as a no-op, a path no
claim exercises), insert into `returnedSets`, and eagerly reset the pool the
moment `returnedSets.size() == m_createInfo.maxSets`. -/
def releaseToPool (d : DPM) (set : Nat) : DPM :=
  match alistGet d.setToPool set with
  | none => d
  | some p =>
    let ins : PoolInfo → PoolInfo := fun P =>
      { P with returnedSets := setInsert P.returnedSets set }
    let d1 := { d with pools := updatePool d.pools p ins }
    let rsize := (((d1.pools.find? (fun P => P.pool == p)).map
      (fun P => P.returnedSets.length)).getD 0)
    if rsize == d.maxSets then resetPool d1 p else d1

/-- `DescriptorPoolManager::init(device, cache, layout, maxSetsPerPool)`:
records `m_createInfo.maxSets` and creates the first pool. (The
descriptor-type histogram it also computes only parametrises the backend
`VkDescriptorPoolSize`s and is not observable in the model.) -/
def initDPM (maxSetsPerPool : Nat) : DPM :=
  createNewPool ⟨[], [], maxSetsPerPool, 0, 0⟩

/-- `k` successive `allocateDescriptorSet()` calls, collecting the returned
set handles (stopping at a fatal error). -/
def allocN (okAlloc : Nat → Bool) : Nat → DPM → List Nat × DPM
  | 0, d => ([], d)
  | k + 1, d =>
    match allocateDescriptorSet okAlloc d with
    | (.ok s, d2) =>
      let r := allocN okAlloc k d2
      (s :: r.1, r.2)
    | (.fatal, d2) => ([], d2)

/-- The failure-free backend: every `vkAllocateDescriptorSets` call on a pool
with spare capacity succeeds (this manager sizes each pool to hold exactly
`maxSets` sets of its one fixed layout). -/
def okTrue : Nat → Bool := fun _ => true

theorem setInsert_of_not_mem {s : List Nat} {x : Nat} (h : x ∉ s) :
    setInsert s x = x :: s := by
  simp [setInsert, h]

theorem alistSet_append_fresh : ∀ (m : List (Nat × Nat)) (k v : Nat),
    (∀ kv ∈ m, kv.1 ≠ k) → alistSet m k v = m ++ [(k, v)] := by
  intro m k v
  induction m with
  | nil => intro _; rfl
  | cons kv rest ih =>
    intro h
    obtain ⟨a, b⟩ := kv
    have ha : a ≠ k := h (a, b) (by simp)
    simp only [alistSet, List.cons_append]
    rw [if_neg (by simpa using ha)]
    rw [ih (fun kv hkv => h kv (by simp [hkv]))]

theorem alistGet_range'_map (p0 : Nat) : ∀ (k a j : Nat) (tail : List (Nat × Nat)),
    a ≤ j → j < a + k →
    alistGet ((List.range' a k).map (fun s => (s, p0)) ++ tail) j = some p0 := by
  intro k
  induction k with
  | zero => intro a j tail h1 h2; omega
  | succ n ih =>
    intro a j tail h1 h2
    rw [List.range'_succ]
    simp only [List.map_cons, List.cons_append, alistGet]
    by_cases hj : a = j
    · rw [if_pos (by simpa using hj)]
    · rw [if_neg (by simpa using hj)]
      exact ih (a + 1) j tail (by omega) (by omega)

theorem alistErase_append_first : ∀ (xs : List (Nat × Nat)) (k v : Nat)
    (tail : List (Nat × Nat)), (∀ kv ∈ xs, kv.1 ≠ k) →
    alistErase (xs ++ (k, v) :: tail) k = xs ++ tail := by
  intro xs k v tail
  induction xs with
  | nil =>
    intro _
    simp only [List.nil_append, alistErase]
    rw [if_pos (by simp)]
  | cons kv rest ih =>
    intro h
    obtain ⟨a, b⟩ := kv
    have ha : a ≠ k := h (a, b) (by simp)
    simp only [List.cons_append, alistErase, List.append_eq]
    rw [if_neg (by simpa using ha)]
    rw [ih (fun kv hkv => h kv (by simp [hkv]))]

theorem foldl_erase_range'_map (p0 : Nat) : ∀ (k a : Nat) (tail : List (Nat × Nat)),
    List.foldl alistErase ((List.range' a k).map (fun s => (s, p0)) ++ tail)
      ((List.range' a k).reverse) = tail := by
  intro k
  induction k with
  | zero => intro a tail; simp
  | succ n ih =>
    intro a tail
    have hconcat : List.range' a (n + 1) = List.range' a n ++ [a + n] := by
      simpa using @List.range'_concat 1 a n
    rw [hconcat]
    simp only [List.reverse_append, List.reverse_cons, List.reverse_nil, List.nil_append,
      List.map_append, List.map_cons, List.map_nil, List.append_assoc, List.nil_append,
      List.singleton_append, List.foldl_cons]
    have herase : alistErase ((List.range' a n).map (fun s => (s, p0)) ++
        (a + n, p0) :: tail) (a + n) =
        (List.range' a n).map (fun s => (s, p0)) ++ tail := by
      apply alistErase_append_first
      intro kv hkv
      simp only [List.mem_map] at hkv
      obtain ⟨x, hx, rfl⟩ := hkv
      have := List.mem_range'_1.mp hx
      omega
    rw [herase]
    exact ih a tail

theorem scanPools_noRoom (ok : Nat → Bool) (fs : Nat) : ∀ (ps : List PoolInfo),
    (∀ P ∈ ps, P.maxSets ≤ P.allocatedSets.length) → scanPools ok fs ps = .noRoom := by
  intro ps
  induction ps with
  | nil => intro _; rfl
  | cons P rest ih =>
    intro h
    have hP := h P (by simp)
    simp only [scanPools]
    rw [if_neg (by omega)]
    rw [ih (fun Q hQ => h Q (by simp [hQ]))]

theorem scanPools_append_fresh (ok : Nat → Bool) (fs np m : Nat) (hm : 1 ≤ m) :
    ∀ (ps : List PoolInfo), (∀ P ∈ ps, P.maxSets ≤ P.allocatedSets.length) →
    scanPools ok fs (ps ++ [⟨np, m, [], []⟩]) =
      if ok np then .success fs np (ps ++ [⟨np, m, [fs], []⟩]) else .err := by
  intro ps
  induction ps with
  | nil =>
    intro _
    simp only [List.nil_append, scanPools]
    rw [if_pos (by simpa using hm)]
    by_cases hok : ok np = true
    · rw [if_pos hok, if_pos hok]
      rfl
    · rw [if_neg hok, if_neg hok]
  | cons P rest ih =>
    intro h
    have hP := h P (by simp)
    simp only [List.cons_append, scanPools, List.append_eq]
    rw [if_neg (by omega)]
    rw [ih (fun Q hQ => h Q (by simp [hQ]))]
    by_cases hok : ok np = true
    · rw [if_pos hok, if_pos hok]
    · rw [if_neg hok, if_neg hok]

theorem allocN_first_pool (p0 m ms np : Nat) (rest : List PoolInfo) :
    ∀ (k a : Nat) (A R : List Nat) (stp : List (Nat × Nat)),
    A.length + k ≤ m → (∀ x ∈ A, x < a) → (∀ kv ∈ stp, kv.1 < a) →
    allocN okTrue k ⟨⟨p0, m, A, R⟩ :: rest, stp, ms, a, np⟩ =
      (List.range' a k,
        ⟨⟨p0, m, (List.range' a k).reverse ++ A, R⟩ :: rest,
          stp ++ (List.range' a k).map (fun s => (s, p0)), ms, a + k, np⟩) := by
  intro k
  induction k with
  | zero =>
    intro a A R stp _ _ _
    simp [allocN, List.range']
  | succ n ih =>
    intro a A R stp hlen hA hstp
    have hins : setInsert A a = a :: A := setInsert_of_not_mem (fun hmem => by
      have := hA a hmem
      omega)
    have hscan : scanPools okTrue a (⟨p0, m, A, R⟩ :: rest) =
        .success a p0 (⟨p0, m, a :: A, R⟩ :: rest) := by
      simp only [scanPools]
      rw [if_pos (show A.length < m by omega)]
      rw [if_pos (show okTrue p0 = true from rfl)]
      rw [hins]
    have hset : alistSet stp a p0 = stp ++ [(a, p0)] :=
      alistSet_append_fresh stp a p0 (fun kv hkv => by
        have := hstp kv hkv
        omega)
    have hstep : allocateDescriptorSet okTrue ⟨⟨p0, m, A, R⟩ :: rest, stp, ms, a, np⟩ =
        (.ok a, ⟨⟨p0, m, a :: A, R⟩ :: rest, stp ++ [(a, p0)], ms, a + 1, np⟩) := by
      simp only [allocateDescriptorSet]
      rw [hscan]
      dsimp only
      rw [hset]
    simp only [allocN]
    rw [hstep]
    dsimp only
    have hrec := ih (a + 1) (a :: A) R (stp ++ [(a, p0)])
      (by simp only [List.length_cons]; omega)
      (by intro x hx
          rcases List.mem_cons.mp hx with h | h
          · omega
          · have := hA x h; omega)
      (by intro kv hkv
          rcases List.mem_append.mp hkv with h | h
          · have := hstp kv h; omega
          · simp only [List.mem_singleton] at h
            subst h
            omega)
    rw [hrec]
    rw [List.range'_succ]
    simp only [List.reverse_cons, List.map_cons, List.append_assoc, List.singleton_append,
      List.cons_append, List.nil_append]
    have harith : a + 1 + n = a + (n + 1) := by omega
    rw [harith]

theorem release_step (pm N ns np j : Nat) (P1 : PoolInfo) (hP1 : (P1.pool == 0) = false)
    (tail : List (Nat × Nat)) (AL : List Nat) (hj : j < N) :
    releaseToPool
      ⟨[⟨0, pm, AL, (List.range' 0 j).reverse⟩, P1],
        (List.range' 0 N).map (fun s => (s, 0)) ++ tail, N, ns, np⟩ j =
      (if j + 1 = N then
        ⟨[⟨0, pm, [], []⟩, P1], tail, N, ns, np⟩
      else
        ⟨[⟨0, pm, AL, (List.range' 0 (j + 1)).reverse⟩, P1],
          (List.range' 0 N).map (fun s => (s, 0)) ++ tail, N, ns, np⟩) := by
  have hget : alistGet ((List.range' 0 N).map (fun s => (s, 0)) ++ tail) j = some 0 :=
    alistGet_range'_map 0 N 0 j tail (by omega) (by omega)
  have hnotmem : j ∉ (List.range' 0 j).reverse := by
    intro hmem
    rw [List.mem_reverse] at hmem
    have := List.mem_range'_1.mp hmem
    omega
  have hrev : setInsert ((List.range' 0 j).reverse) j = (List.range' 0 (j + 1)).reverse := by
    rw [setInsert_of_not_mem hnotmem]
    have hc : List.range' 0 (j + 1) = List.range' 0 j ++ [0 + 1 * j] := @List.range'_concat 1 0 j
    rw [hc]
    simp
  simp only [releaseToPool]
  rw [hget]
  simp only [updatePool, List.map_cons, List.map_nil, hP1, beq_self_eq_true,
    Bool.false_eq_true, if_true, if_false, hrev]
  rw [List.find?_cons_of_pos _ (by simp)]
  simp only [Option.map_some', Option.getD_some, List.length_reverse, List.length_range']
  by_cases hjn : j + 1 = N
  · rw [if_pos (by simpa using hjn), if_pos hjn]
    simp only [resetPool]
    rw [List.find?_cons_of_pos _ (by simp)]
    simp only [Option.map_some', Option.getD_some]
    simp only [updatePool, List.map_cons, List.map_nil, hP1, beq_self_eq_true,
      Bool.false_eq_true, if_true, if_false]
    rw [hjn]
    rw [foldl_erase_range'_map 0 N 0 tail]
  · rw [if_neg (by simpa using hjn), if_neg hjn]

theorem release_phase (pm N ns np : Nat) (P1 : PoolInfo) (hP1 : (P1.pool == 0) = false)
    (tail : List (Nat × Nat)) (AL : List Nat) :
    ∀ (k j : Nat), j + k = N → 1 ≤ k →
    List.foldl releaseToPool
      ⟨[⟨0, pm, AL, (List.range' 0 j).reverse⟩, P1],
        (List.range' 0 N).map (fun s => (s, 0)) ++ tail, N, ns, np⟩
      (List.range' j k) =
      ⟨[⟨0, pm, [], []⟩, P1], tail, N, ns, np⟩ := by
  intro k
  induction k with
  | zero => intro j h1 h2; omega
  | succ n ih =>
    intro j hjk hk
    rw [List.range'_succ]
    simp only [List.foldl_cons]
    rw [release_step pm N ns np j P1 hP1 tail AL (by omega)]
    cases n with
    | zero =>
      rw [if_pos (by omega)]
      simp [List.range']
    | succ n2 =>
      rw [if_neg (by omega)]
      exact ih (j + 1) (by omega) (by omega)

/-- C5: the pool lifecycle for a `DescriptorPoolManager` initialised with
`maxSetsPerPool = N ≥ 1` (failure-free backend). (1) The first `N`
`allocateDescriptorSet()` calls return sets `0, …, N-1`, all drawn from the
single initial pool (every set maps to pool 0 in `setToPool`, pool count
stays 1). (2) One further call creates exactly one new pool — the full pool's
entry is unchanged, never reused — and draws set `N` from the new pool.
(3) Releasing the `N` original sets via `releaseToPool` eagerly resets the
original pool the moment the last one comes back: its `allocatedSets` and
`returnedSets` bookkeeping are both cleared. (4) `N` further sets can then be
allocated, all drawn from the reset original pool, without the pool count
growing. -/
theorem C5_pool_lifecycle (N : Nat) (hN : 1 ≤ N) :
    allocN okTrue N (initDPM N) =
      (List.range' 0 N,
        ⟨[⟨0, N, (List.range' 0 N).reverse, []⟩],
          (List.range' 0 N).map (fun s => (s, 0)), N, N, 1⟩) ∧
    allocateDescriptorSet okTrue
        ⟨[⟨0, N, (List.range' 0 N).reverse, []⟩],
          (List.range' 0 N).map (fun s => (s, 0)), N, N, 1⟩ =
      (.ok N,
        ⟨[⟨0, N, (List.range' 0 N).reverse, []⟩, ⟨1, N, [N], []⟩],
          (List.range' 0 N).map (fun s => (s, 0)) ++ [(N, 1)], N, N + 1, 2⟩) ∧
    List.foldl releaseToPool
        ⟨[⟨0, N, (List.range' 0 N).reverse, []⟩, ⟨1, N, [N], []⟩],
          (List.range' 0 N).map (fun s => (s, 0)) ++ [(N, 1)], N, N + 1, 2⟩
        (List.range' 0 N) =
      ⟨[⟨0, N, [], []⟩, ⟨1, N, [N], []⟩], [(N, 1)], N, N + 1, 2⟩ ∧
    allocN okTrue N ⟨[⟨0, N, [], []⟩, ⟨1, N, [N], []⟩], [(N, 1)], N, N + 1, 2⟩ =
      (List.range' (N + 1) N,
        ⟨[⟨0, N, (List.range' (N + 1) N).reverse, []⟩, ⟨1, N, [N], []⟩],
          [(N, 1)] ++ (List.range' (N + 1) N).map (fun s => (s, 0)), N, N + 1 + N, 2⟩) := by
  have hfull : ∀ P ∈ [(⟨0, N, (List.range' 0 N).reverse, []⟩ : PoolInfo)],
      P.maxSets ≤ P.allocatedSets.length := by
    intro P hP
    simp only [List.mem_singleton] at hP
    subst hP
    simp
  refine ⟨?_, ?_, ?_, ?_⟩
  · have h1 := allocN_first_pool 0 N N 1 [] N 0 [] [] []
      (by simp) (by simp) (by simp)
    show allocN okTrue N ⟨[⟨0, N, [], []⟩], [], N, 0, 1⟩ = _
    rw [h1]
    simp
  · have hscan1 := scanPools_noRoom okTrue N _ hfull
    have hscan2 := scanPools_append_fresh okTrue N 1 N hN _ hfull
    have hset : alistSet ((List.range' 0 N).map (fun s => (s, 0))) N 1 =
        (List.range' 0 N).map (fun s => (s, 0)) ++ [(N, 1)] := by
      apply alistSet_append_fresh
      intro kv hkv
      simp only [List.mem_map] at hkv
      obtain ⟨x, hx, rfl⟩ := hkv
      have := List.mem_range'_1.mp hx
      omega
    simp only [allocateDescriptorSet]
    rw [hscan1]
    dsimp only [createNewPool]
    rw [hscan2, if_pos (show okTrue 1 = true from rfl)]
    dsimp only
    rw [hset]
    simp
  · have h3 := release_phase N N (N + 1) 2 ⟨1, N, [N], []⟩ rfl [(N, 1)]
      ((List.range' 0 N).reverse) N 0 (by omega) hN
    simpa using h3
  · have h4 := allocN_first_pool 0 N N 2 [⟨1, N, [N], []⟩] N (N + 1) [] [] [(N, 1)]
      (by simp) (by simp) (by simp)
    rw [h4]
    simp

/-- C5 witness: the lifecycle theorem at `N = 2`. -/
theorem C5_witness :
    1 ≤ 2 ∧
      allocN okTrue 2 (initDPM 2) =
        (List.range' 0 2,
          ⟨[⟨0, 2, (List.range' 0 2).reverse, []⟩],
            (List.range' 0 2).map (fun s => (s, 0)), 2, 2, 1⟩) :=
  ⟨by decide, (C5_pool_lifecycle 2 (by decide)).1⟩

/-- C7: descriptor-pool exhaustion in `allocateDescriptorSet` — every pool's
`allocatedSets` bookkeeping at capacity — is recovered by creating exactly one
additional pool (`createNewPool`) and re-attempting the allocation exactly
once, never reusing the full pools (their entries are unchanged). When the
backend accepts the retry (`okAlloc` of the new pool), the caller receives a
set drawn from the new pool and no error surfaces; only when the retry itself
fails does the call escalate to the fatal error (the thrown
`std::runtime_error`), with the one new pool already created. -/
theorem C7_pool_exhaustion_recovery (okAlloc : Nat → Bool) (d : DPM)
    (hfull : ∀ P ∈ d.pools, P.maxSets ≤ P.allocatedSets.length)
    (hmax : 1 ≤ d.maxSets) :
    (allocateDescriptorSet okAlloc d).2.pools.length = d.pools.length + 1 ∧
    (allocateDescriptorSet okAlloc d).2.pools.take d.pools.length = d.pools ∧
    (okAlloc d.nextPool = true →
      (allocateDescriptorSet okAlloc d).1 = .ok d.nextSet ∧
      (allocateDescriptorSet okAlloc d).2.pools =
        d.pools ++ [⟨d.nextPool, d.maxSets, [d.nextSet], []⟩]) ∧
    (okAlloc d.nextPool = false →
      (allocateDescriptorSet okAlloc d).1 = .fatal ∧
      (allocateDescriptorSet okAlloc d).2 = createNewPool d) := by
  have hscan1 : scanPools okAlloc d.nextSet d.pools = .noRoom :=
    scanPools_noRoom okAlloc d.nextSet d.pools hfull
  have hscan2 : scanPools okAlloc d.nextSet
      (d.pools ++ [⟨d.nextPool, d.maxSets, [], []⟩]) =
      if okAlloc d.nextPool then
        .success d.nextSet d.nextPool
          (d.pools ++ [⟨d.nextPool, d.maxSets, [d.nextSet], []⟩])
      else .err :=
    scanPools_append_fresh okAlloc d.nextSet d.nextPool d.maxSets hmax d.pools hfull
  by_cases hok : okAlloc d.nextPool = true
  · have halloc : allocateDescriptorSet okAlloc d =
        (.ok d.nextSet,
          ⟨d.pools ++ [⟨d.nextPool, d.maxSets, [d.nextSet], []⟩],
            alistSet d.setToPool d.nextSet d.nextPool, d.maxSets, d.nextSet + 1,
            d.nextPool + 1⟩) := by
      simp only [allocateDescriptorSet, createNewPool]
      rw [hscan1]
      simp only []
      rw [hscan2, if_pos hok]
    rw [halloc]
    refine ⟨by simp, by simp, fun _ => ⟨rfl, rfl⟩, fun hc => by rw [hok] at hc; cases hc⟩
  · have hok2 : okAlloc d.nextPool = false := by
      cases h : okAlloc d.nextPool
      · rfl
      · exact absurd h hok
    have halloc : allocateDescriptorSet okAlloc d = (.fatal, createNewPool d) := by
      simp only [allocateDescriptorSet, createNewPool]
      rw [hscan1]
      simp only []
      rw [hscan2, if_neg hok]
    rw [halloc]
    refine ⟨by simp [createNewPool], by simp [createNewPool], ?_, fun _ => ⟨rfl, rfl⟩⟩
    intro hc
    rw [hc] at hok2
    cases hok2

/-- C7 witness: a manager with one full pool (`maxSets = 1`, one allocated
set) and the failure-free backend: the next allocation adds exactly one pool
and succeeds from it. -/
theorem C7_witness :
    (∀ P ∈ (DPM.mk [⟨0, 1, [0], []⟩] [(0, 0)] 1 1 1).pools,
        P.maxSets ≤ P.allocatedSets.length) ∧
      1 ≤ (DPM.mk [⟨0, 1, [0], []⟩] [(0, 0)] 1 1 1).maxSets ∧
      (allocateDescriptorSet okTrue
          (DPM.mk [⟨0, 1, [0], []⟩] [(0, 0)] 1 1 1)).2.pools.length =
        (DPM.mk [⟨0, 1, [0], []⟩] [(0, 0)] 1 1 1).pools.length + 1 :=
  ⟨by decide, by decide,
    (C7_pool_exhaustion_recovery okTrue (DPM.mk [⟨0, 1, [0], []⟩] [(0, 0)] 1 1 1)
      (by decide) (by decide)).1⟩

/-! ## MemoryCache buffers (`gvu/Core/Cache/TextureCache.h`)

`SharedData::buffers` is a `std::vector<BufferHandle>` of
`std::shared_ptr<BufferInfo>`. An entry is modelled as `Option Buf`: `none` is
a null `shared_ptr` (`B.get() == nullptr`), `some B` a live pointer whose
pointee carries the fields the cache inspects. `Buf.free` models
`use_count() == 1` (only the registry owns the handle); `Buf.buffer` is the
`VkBuffer` inside the pointee, `0` standing for `VK_NULL_HANDLE` after
`_destroyBuffer`. VMA enum/flag values are plain `Nat`s. -/

/-- The fields of `BufferInfo` that `MemoryCache` reads: `id` identifies the
underlying resource, `size` is `bufferInfo.size` (already rounded), `usage`
is `bufferInfo.usage`, `memUsage` is `allocationCreateInfo.usage`,
`allocFlags` is `allocationCreateInfo.flags`, `buffer` the backend
`VkBuffer`. -/
structure Buf where
  id         : Nat
  size       : Nat
  usage      : Nat
  memUsage   : Nat
  allocFlags : Nat
  buffer     : Nat
  free       : Bool
deriving DecidableEq

/-- The buffer registry of one `MemoryCache` (`m_sharedData->buffers`) plus a
fresh-resource counter standing for the backend. -/
structure MC where
  buffers : List (Option Buf)
  nextId  : Nat
deriving DecidableEq

/-- The per-entry reuse test of `allocateBuffer`:
`B.use_count() == 1 && B->getBufferSize() == bytes && B->bufferInfo.usage ==
usage && B->allocationCreateInfo.usage == memUsage`.
`allocationCreateInfo.flags` is NOT inspected. -/
def bufMatches (bytes usage memUsage : Nat) (B : Buf) : Bool :=
  B.free && (B.size == bytes) && (B.usage == usage) && (B.memUsage == memUsage)

/-- The reuse scan of `allocateBuffer`: the first registered buffer satisfying
`bufMatches` is returned (its use count rises to 2, i.e. `free` drops).
Returns `none` when no entry matches. A `none` entry is a null shared
pointer, whose `use_count()` is 0, never 1. -/
def allocScan (bytes usage memUsage : Nat) : List (Option Buf) →
    Option (Nat × List (Option Buf))
  | [] => none
  | some B :: rest =>
    if bufMatches bytes usage memUsage B then
      some (B.id, some { B with free := false } :: rest)
    else
      (allocScan bytes usage memUsage rest).map (fun r => (r.1, some B :: r.2))
  | none :: rest =>
    (allocScan bytes usage memUsage rest).map (fun r => (r.1, none :: r.2))

/-- `MemoryCache::allocateBuffer(bytes, usage, memUsage, allocFlags)`: round
`bytes` up to a multiple of 256, scan for a reusable registered buffer, and
otherwise create a fresh backend buffer (always succeeds in the model),
register it, and return it. Returns the id of the returned buffer. -/
def allocateBuffer (mc : MC) (bytes usage memUsage allocFlags : Nat) : Nat × MC :=
  let bytes2 := roundUp bytes 256
  match allocScan bytes2 usage memUsage mc.buffers with
  | some r => (r.1, { mc with buffers := r.2 })
  | none =>
    (mc.nextId,
      ⟨mc.buffers ++ [some (Buf.mk mc.nextId bytes2 usage memUsage allocFlags
          (mc.nextId + 1) false)],
        mc.nextId + 1⟩)

/-- The caller drops its last external reference to buffer `i`: its
`use_count()` falls back to 1. -/
def releaseBuffer (mc : MC) (i : Nat) : MC :=
  { mc with buffers := mc.buffers.map (fun e =>
      match e with
      | some B => if B.id == i then some { B with free := true } else some B
      | none => none) }

/-- `MemoryCache::freeUnusedBuffers()`: `_destroyBuffer(*B)` every handle with
`use_count() == 1` (this nulls the pointee's `VkBuffer`, not the shared
pointer), then `std::remove_if`/`erase` every entry whose shared pointer
itself is null (`B.get() == nullptr`), returning how many were erased. -/
def freeUnusedBuffers (mc : MC) : Nat × MC :=
  let bf := mc.buffers.map (fun e =>
    match e with
    | some B => if B.free then some { B with buffer := 0 } else some B
    | none => none)
  let kept := bf.filter (fun e => !e.isNone)
  (bf.length - kept.length, { mc with buffers := kept })

theorem freeUnusedBuffers_all_some (mc : MC) (h : ∀ e ∈ mc.buffers, e ≠ none) :
    (freeUnusedBuffers mc).1 = 0 ∧
      (freeUnusedBuffers mc).2.buffers.length = mc.buffers.length := by
  have hkept : ∀ (l : List (Option Buf)), (∀ e ∈ l, e ≠ none) →
      (l.map (fun e =>
        match e with
        | some B => if B.free then some { B with buffer := 0 } else some B
        | none => none)).filter (fun e => !e.isNone) =
      l.map (fun e =>
        match e with
        | some B => if B.free then some { B with buffer := 0 } else some B
        | none => none) := by
    intro l
    induction l with
    | nil => intro _; rfl
    | cons e rest ih =>
      intro hl
      cases e with
      | none => exact absurd rfl (hl none (by simp))
      | some B =>
        simp only [List.map_cons, List.filter_cons]
        rw [ih (fun x hx => hl x (by simp [hx]))]
        by_cases hf : B.free = true
        · rw [if_pos (by simp [hf])]
        · rw [if_pos (by simp [hf])]
  simp only [freeUnusedBuffers]
  rw [hkept mc.buffers h]
  simp

/-- C3: `freeUnusedBuffers` never reclaims a registry slot and always returns
0 (see also `freeUnusedBuffers_all_some`). The first loop `_destroyBuffer`s
the pointee of every handle whose `use_count()` is 1 (nulling its
`VkBuffer`), but nothing ever resets the shared pointers stored in the
vector, so the `remove_if` predicate `B.get() == nullptr` matches no entry:
on the failing input — a registry holding exactly one unreferenced buffer —
the call returns 0 and leaves the registry at size 1 with the
(backend-destroyed) entry still registered, where the claim demands a return
of 1 and a registry shrunk to 0; on a registry with one unreferenced and one
still-referenced buffer it returns 0 and keeps both, destroying only the
unreferenced one's backend buffer. -/
theorem C3_freeUnused_never_reclaims :
    freeUnusedBuffers ⟨[some (Buf.mk 0 256 1 2 0 1 true)], 1⟩ =
        (0, ⟨[some (Buf.mk 0 256 1 2 0 0 true)], 1⟩) ∧
      freeUnusedBuffers ⟨[some (Buf.mk 0 256 1 2 0 1 true),
          some (Buf.mk 1 512 1 2 0 2 false)], 2⟩ =
        (0, ⟨[some (Buf.mk 0 256 1 2 0 0 true),
          some (Buf.mk 1 512 1 2 0 2 false)], 2⟩) := by
  exact ⟨by decide, by decide⟩

theorem allocScan_length (bytes usage memUsage : Nat) : ∀ (l : List (Option Buf))
    (i : Nat) (r : List (Option Buf)), allocScan bytes usage memUsage l = some (i, r) →
    r.length = l.length := by
  intro l
  induction l with
  | nil => intro i r h; exact Option.noConfusion h
  | cons e rest ih =>
    intro i r h
    cases e with
    | some B =>
      simp only [allocScan] at h
      by_cases hm : bufMatches bytes usage memUsage B = true
      · rw [if_pos hm] at h
        have h2 := (Prod.mk.injEq _ _ _ _ ▸ Option.some.inj h).2
        subst h2
        simp
      · rw [if_neg hm] at h
        cases hs : allocScan bytes usage memUsage rest with
        | none => rw [hs] at h; exact Option.noConfusion h
        | some r0 =>
          rw [hs] at h
          simp only [Option.map_some'] at h
          have h2 := (Prod.mk.injEq _ _ _ _ ▸ Option.some.inj h).2
          subst h2
          simp only [List.length_cons]
          rw [ih r0.1 r0.2 (by rw [hs])]
    | none =>
      simp only [allocScan] at h
      cases hs : allocScan bytes usage memUsage rest with
      | none => rw [hs] at h; exact Option.noConfusion h
      | some r0 =>
        rw [hs] at h
        simp only [Option.map_some'] at h
        have h2 := (Prod.mk.injEq _ _ _ _ ▸ Option.some.inj h).2
        subst h2
        simp only [List.length_cons]
        rw [ih r0.1 r0.2 (by rw [hs])]

theorem allocScan_none (bytes usage memUsage : Nat) : ∀ (l : List (Option Buf)),
    (∀ B, some B ∈ l → bufMatches bytes usage memUsage B = false) →
    allocScan bytes usage memUsage l = none := by
  intro l
  induction l with
  | nil => intro _; rfl
  | cons e rest ih =>
    intro h
    cases e with
    | some B =>
      simp only [allocScan]
      rw [if_neg (by rw [h B (by simp)]; exact Bool.noConfusion)]
      rw [ih (fun B2 hB2 => h B2 (by simp [hB2]))]
      rfl
    | none =>
      simp only [allocScan]
      rw [ih (fun B2 hB2 => h B2 (by simp [hB2]))]
      rfl

theorem allocScan_append_match (bytes usage memUsage : Nat) (B : Buf)
    (hB : bufMatches bytes usage memUsage B = true) : ∀ (l : List (Option Buf)),
    (∀ B2, some B2 ∈ l → bufMatches bytes usage memUsage B2 = false) →
    allocScan bytes usage memUsage (l ++ [some B]) =
      some (B.id, l ++ [some { B with free := false }]) := by
  intro l
  induction l with
  | nil =>
    intro _
    simp only [List.nil_append, allocScan]
    rw [if_pos hB]
  | cons e rest ih =>
    intro h
    cases e with
    | some B2 =>
      simp only [List.cons_append, allocScan, List.append_eq]
      rw [if_neg (by rw [h B2 (by simp)]; exact Bool.noConfusion)]
      rw [ih (fun B3 hB3 => h B3 (by simp [hB3]))]
      rfl
    | none =>
      simp only [List.cons_append, allocScan, List.append_eq]
      rw [ih (fun B3 hB3 => h B3 (by simp [hB3]))]
      rfl

theorem map_release_id_ne : ∀ (l : List (Option Buf)) (i : Nat),
    (∀ B2, some B2 ∈ l → B2.id ≠ i) →
    l.map (fun e =>
      match e with
      | some B2 => if B2.id == i then some { B2 with free := true } else some B2
      | none => none) = l := by
  intro l i
  induction l with
  | nil => intro _; rfl
  | cons e rest ih =>
    intro hl
    cases e with
    | some B2 =>
      simp only [List.map_cons]
      rw [if_neg (by simpa using hl B2 (by simp))]
      rw [ih (fun B3 hB3 => hl B3 (by simp [hB3]))]
    | none =>
      simp only [List.map_cons]
      rw [ih (fun B3 hB3 => hl B3 (by simp [hB3]))]

theorem releaseBuffer_append_fresh (bl : List (Option Buf)) (n i : Nat) (B : Buf)
    (hB : B.id = i) (hwf : ∀ B2, some B2 ∈ bl → B2.id ≠ i) :
    releaseBuffer ⟨bl ++ [some B], n⟩ i = ⟨bl ++ [some { B with free := true }], n⟩ := by
  simp only [releaseBuffer, List.map_append, List.map_cons, List.map_nil]
  rw [map_release_id_ne bl i hwf]
  rw [if_pos (by simpa using hB)]

theorem alloc_miss (mc : MC) (S U M F : Nat)
    (hno : ∀ B, some B ∈ mc.buffers → bufMatches (roundUp S 256) U M B = false) :
    allocateBuffer mc S U M F =
      (mc.nextId,
        ⟨mc.buffers ++
            [some (Buf.mk mc.nextId (roundUp S 256) U M F (mc.nextId + 1) false)],
          mc.nextId + 1⟩) := by
  simp only [allocateBuffer]
  rw [allocScan_none (roundUp S 256) U M mc.buffers hno]

theorem reuse_after_release (mc : MC) (S U M F S2 F2 : Nat)
    (hno : ∀ B, some B ∈ mc.buffers → bufMatches (roundUp S 256) U M B = false)
    (hwf : ∀ B, some B ∈ mc.buffers → B.id ≠ mc.nextId)
    (hr : roundUp S2 256 = roundUp S 256) :
    allocateBuffer (releaseBuffer (allocateBuffer mc S U M F).2 mc.nextId) S2 U M F2 =
      (mc.nextId,
        ⟨mc.buffers ++
            [some (Buf.mk mc.nextId (roundUp S 256) U M F (mc.nextId + 1) false)],
          mc.nextId + 1⟩) := by
  rw [alloc_miss mc S U M F hno]
  dsimp only
  rw [releaseBuffer_append_fresh mc.buffers (mc.nextId + 1) mc.nextId
    (Buf.mk mc.nextId (roundUp S 256) U M F (mc.nextId + 1) false) rfl hwf]
  simp only [allocateBuffer]
  rw [hr]
  rw [allocScan_append_match (roundUp S 256) U M
    (Buf.mk mc.nextId (roundUp S 256) U M F (mc.nextId + 1) true)
    (by simp [bufMatches]) mc.buffers hno]

/-- C8 counterexample: from an empty pool, `allocateBuffer(1, U, M)` creates
buffer 0; after dropping the handle, `allocateBuffer(2, U, M)` — the byte
count S changed from 1 to 2 — still returns pooled buffer 0 with no new
backend allocation (the registry stays at size 1), because both sizes round
up to the same 256-byte bucket. This refutes the claim's final clause that
changing any of S, U, M forces a new allocation. -/
theorem C8_counterexample :
    (1 : Nat) ≠ 2 ∧
      (allocateBuffer (releaseBuffer (allocateBuffer ⟨[], 0⟩ 1 7 3 0).2 0) 2 7 3 0).1 = 0 ∧
      (allocateBuffer (releaseBuffer (allocateBuffer ⟨[], 0⟩ 1 7 3 0).2 0)
          2 7 3 0).2.buffers.length = 1 := by
  decide

/-- C8 (amended): `allocateBuffer(bytes, usage, memoryClass, hostAccessHint)`
first rounds `bytes` up to a multiple of 256; if the scan finds a registered
buffer with external reference count 1 whose (rounded size, usage flags,
memory class) tuple matches, that buffer is returned with no new backend
allocation; otherwise a new backend buffer is created, registered and
returned. Consequently, after dropping every external reference to a handle
obtained with `(S, U, M)` (when no other pooled buffer matched that tuple),
the next `allocateBuffer(S2, U, M)` with the same 256-rounded size returns the
same underlying resource, while changing the rounded size, the usage flags,
or the memory class (to a tuple no other pooled free buffer matches) forces a
new allocation. -/
theorem C8_allocateBuffer_amended (mc : MC) (S U M F : Nat) :
    (∀ (i : Nat) (r : List (Option Buf)),
      allocScan (roundUp S 256) U M mc.buffers = some (i, r) →
        allocateBuffer mc S U M F = (i, ⟨r, mc.nextId⟩) ∧
          r.length = mc.buffers.length) ∧
    (allocScan (roundUp S 256) U M mc.buffers = none →
      allocateBuffer mc S U M F =
        (mc.nextId,
          ⟨mc.buffers ++
              [some (Buf.mk mc.nextId (roundUp S 256) U M F (mc.nextId + 1) false)],
            mc.nextId + 1⟩)) ∧
    (∀ (S2 F2 : Nat),
      (∀ B, some B ∈ mc.buffers → bufMatches (roundUp S 256) U M B = false) →
      (∀ B, some B ∈ mc.buffers → B.id ≠ mc.nextId) →
      roundUp S2 256 = roundUp S 256 →
      (allocateBuffer (releaseBuffer (allocateBuffer mc S U M F).2 mc.nextId)
          S2 U M F2).1 = mc.nextId ∧
        (allocateBuffer (releaseBuffer (allocateBuffer mc S U M F).2 mc.nextId)
            S2 U M F2).2.buffers.length = mc.buffers.length + 1) ∧
    (∀ (S2 U2 M2 F2 : Nat),
      (∀ B, some B ∈ mc.buffers → bufMatches (roundUp S 256) U M B = false) →
      (∀ B, some B ∈ mc.buffers → bufMatches (roundUp S2 256) U2 M2 B = false) →
      (∀ B, some B ∈ mc.buffers → B.id ≠ mc.nextId) →
      ¬(roundUp S2 256 = roundUp S 256 ∧ U2 = U ∧ M2 = M) →
      (allocateBuffer (releaseBuffer (allocateBuffer mc S U M F).2 mc.nextId)
          S2 U2 M2 F2).1 = mc.nextId + 1 ∧
        (allocateBuffer (releaseBuffer (allocateBuffer mc S U M F).2 mc.nextId)
            S2 U2 M2 F2).2.buffers.length = mc.buffers.length + 2) := by
  refine ⟨?_, ?_, ?_, ?_⟩
  · intro i r h
    constructor
    · simp only [allocateBuffer]
      rw [h]
    · exact allocScan_length (roundUp S 256) U M mc.buffers i r h
  · intro h
    simp only [allocateBuffer]
    rw [h]
  · intro S2 F2 hno hwf hr
    rw [reuse_after_release mc S U M F S2 F2 hno hwf hr]
    simp
  · intro S2 U2 M2 F2 hno hno2 hwf hne
    rw [alloc_miss mc S U M F hno]
    dsimp only
    rw [releaseBuffer_append_fresh mc.buffers (mc.nextId + 1) mc.nextId
      (Buf.mk mc.nextId (roundUp S 256) U M F (mc.nextId + 1) false) rfl hwf]
    have hBfalse : bufMatches (roundUp S2 256) U2 M2
        (Buf.mk mc.nextId (roundUp S 256) U M F (mc.nextId + 1) true) = false := by
      apply Bool.eq_false_iff.mpr
      intro hmatch
      apply hne
      simp only [bufMatches, Bool.and_eq_true, beq_iff_eq] at hmatch
      exact ⟨hmatch.1.1.2.symm, hmatch.1.2.symm, hmatch.2.symm⟩
    have hscan : allocScan (roundUp S2 256) U2 M2
        (mc.buffers ++
          [some (Buf.mk mc.nextId (roundUp S 256) U M F (mc.nextId + 1) true)]) =
        none := by
      apply allocScan_none
      intro B hB
      rcases List.mem_append.mp hB with h | h
      · exact hno2 B h
      · simp only [List.mem_singleton, Option.some.injEq] at h
        subst h
        exact hBfalse
    simp only [allocateBuffer]
    rw [hscan]
    simp

/-- C8 witness: from an empty pool, create with `(S, U, M) = (1, 7, 3)`, drop
the handle, re-request with the same rounded size: the same buffer 0 comes
back and the registry stays at size 1. -/
theorem C8_witness :
    (allocateBuffer (releaseBuffer (allocateBuffer ⟨[], 0⟩ 1 7 3 0).2 0) 250 7 3 9).1 =
        (0 : Nat) ∧
      (allocateBuffer (releaseBuffer (allocateBuffer ⟨[], 0⟩ 1 7 3 0).2 0)
          250 7 3 9).2.buffers.length = 0 + 1 :=
  (C8_allocateBuffer_amended ⟨[], 0⟩ 1 7 3 0).2.2.1 250 9
    (by intro B hB; cases hB) (by intro B hB; cases hB) (by decide)

/-- C10: the reuse scan of `allocateBuffer` does not inspect
`allocationCreateInfo.flags`: after creating a buffer with host-access flags
`F` and dropping the handle, a request with identical rounded size, usage and
memory class but different flags `F2 ≠ F` is answered with the pooled buffer
— the very resource that was created with flags `F`, not `F2` — and no new
backend allocation happens. -/
theorem C10_reuse_ignores_alloc_flags (mc : MC) (S S2 U M F F2 : Nat)
    (hno : ∀ B, some B ∈ mc.buffers → bufMatches (roundUp S 256) U M B = false)
    (hwf : ∀ B, some B ∈ mc.buffers → B.id ≠ mc.nextId)
    (hr : roundUp S2 256 = roundUp S 256)
    (_hF : F2 ≠ F) :
    (allocateBuffer (releaseBuffer (allocateBuffer mc S U M F).2 mc.nextId)
        S2 U M F2).1 = (allocateBuffer mc S U M F).1 ∧
      (allocateBuffer (releaseBuffer (allocateBuffer mc S U M F).2 mc.nextId)
          S2 U M F2).2.buffers.length = mc.buffers.length + 1 ∧
      some (Buf.mk mc.nextId (roundUp S 256) U M F (mc.nextId + 1) false) ∈
        (allocateBuffer (releaseBuffer (allocateBuffer mc S U M F).2 mc.nextId)
            S2 U M F2).2.buffers := by
  rw [reuse_after_release mc S U M F S2 F2 hno hwf hr]
  rw [alloc_miss mc S U M F hno]
  simp

/-- C10 witness: flags 4 on creation, flags 8 on the re-request; the pooled
buffer created with flags 4 is returned. -/
theorem C10_witness :
    (allocateBuffer (releaseBuffer (allocateBuffer ⟨[], 0⟩ 100 7 3 4).2 0)
        200 7 3 8).1 = (allocateBuffer ⟨[], 0⟩ 100 7 3 4).1 ∧
      (allocateBuffer (releaseBuffer (allocateBuffer ⟨[], 0⟩ 100 7 3 4).2 0)
          200 7 3 8).2.buffers.length = 0 + 1 ∧
      some (Buf.mk 0 (roundUp 100 256) 7 3 4 (0 + 1) false) ∈
        (allocateBuffer (releaseBuffer (allocateBuffer ⟨[], 0⟩ 100 7 3 4).2 0)
            200 7 3 8).2.buffers :=
  C10_reuse_ignores_alloc_flags ⟨[], 0⟩ 100 200 7 3 4 8
    (by intro B hB; cases hB) (by intro B hB; cases hB) (by decide) (by decide)

/-! ## Descriptor-set-layout cache
(`gvu/Cache/DescriptorSetLayoutCache.h`, `gvu/Core/Cache/Cache_t.h`)

`VkDescriptorSetLayoutBinding` fields and the flags are modelled as `Nat`s
(`pImmutableSamplers` is the pointer value, 0 for `nullptr`). `std::hash`
over integral types is the identity function (as in libstdc++ and libc++),
and `size_t` is 64 bits wide, so `hash_combine`'s shifts and additions wrap
modulo `2^64`. -/

/-- One `VkDescriptorSetLayoutBinding` as compared and hashed by the cache. -/
structure DSLBinding where
  binding            : Nat
  descriptorType     : Nat
  descriptorCount    : Nat
  stageFlags         : Nat
  pImmutableSamplers : Nat
deriving DecidableEq

/-- `gvu::DescriptorSetLayoutCreateInfo`: the cache key. -/
structure DescriptorSetLayoutCreateInfo where
  bindings : List DSLBinding
  flags    : Nat
deriving DecidableEq

/-- The `hash_combine` lambda:
`seed ^= hasher(v) + 0x9e3779b9 + (seed << 6) + (seed >> 2)` in 64-bit
`size_t` arithmetic (for `seed < 2^64` the xor stays below `2^64`). -/
def hashCombine (seed v : Nat) : Nat :=
  seed ^^^ ((v + 0x9e3779b9 + (seed <<< 6) + (seed >>> 2)) % 2 ^ 64)

/-- `DescriptorSetLayoutCreateInfo::hash()`: seed with the binding count,
fold `descriptorCount`, `descriptorType`, `stageFlags` of each binding, and
finally the flags. (`binding` and `pImmutableSamplers` are NOT hashed.) -/
def dslHash (info : DescriptorSetLayoutCreateInfo) : Nat :=
  let h := info.bindings.length
  let h := info.bindings.foldl (fun h b =>
    let h := hashCombine h b.descriptorCount
    let h := hashCombine h b.descriptorType
    hashCombine h b.stageFlags) h
  hashCombine h info.flags

/-- The element comparison of `operator==`:
`std::tie(binding, descriptorCount, descriptorType, stageFlags,
pImmutableSamplers)` on both sides. -/
def bindingTieEq (a b : DSLBinding) : Bool :=
  (a.binding == b.binding) && (a.descriptorCount == b.descriptorCount) &&
    (a.descriptorType == b.descriptorType) && (a.stageFlags == b.stageFlags) &&
    (a.pImmutableSamplers == b.pImmutableSamplers)

/-- `DescriptorSetLayoutCreateInfo::operator==`: when the binding counts are
equal, compare the bindings elementwise (`flags` is never compared); when the
binding counts differ, the source falls through to `return true`. -/
def dslEq (A B : DescriptorSetLayoutCreateInfo) : Bool :=
  if A.bindings.length == B.bindings.length then
    (A.bindings.zip B.bindings).all (fun p => bindingTieEq p.1 p.2)
  else
    true

/-- `Cache_t::_create` over the `std::unordered_map` keyed by
`DescriptorSetLayoutCreateInfo` with `_hasher`: look the key up (two keys are
only ever compared when their hashes agree — bucket selection by hash comes
first); on a hit return the stored handle, on a miss invoke the backend
factory (modelled as a fresh nonzero handle from `next`) and store the pair.
Returns (handle, cache, next). -/
def cacheCreate (cache : List (DescriptorSetLayoutCreateInfo × Nat))
    (info : DescriptorSetLayoutCreateInfo) (next : Nat) :
    Nat × List (DescriptorSetLayoutCreateInfo × Nat) × Nat :=
  match cache.find? (fun kv => (dslHash kv.1 == dslHash info) && dslEq kv.1 info) with
  | some kv => (kv.2, cache, next)
  | none => (next, cache ++ [(info, next)], next + 1)

/-- C1: the equal-implies-hash-equal invariant is violated by the source, and
with it the dedup guarantee. With `d1` the empty descriptor and `d2` a
one-binding descriptor (combined-image-sampler, count 3, vertex|fragment
stages, as in the repository's own unit test), `operator==` answers `true` in
both directions — binding counts differ, so it falls through to
`return true` — yet the hashes differ, and the cache consequently hands out
two distinct handles for "equal" descriptors instead of one shared handle. -/
theorem C1_hash_eq_violation :
    dslEq (DescriptorSetLayoutCreateInfo.mk [] 0)
        (DescriptorSetLayoutCreateInfo.mk [DSLBinding.mk 0 1 3 17 0] 0) = true ∧
      dslEq (DescriptorSetLayoutCreateInfo.mk [DSLBinding.mk 0 1 3 17 0] 0)
        (DescriptorSetLayoutCreateInfo.mk [] 0) = true ∧
      dslHash (DescriptorSetLayoutCreateInfo.mk [] 0) ≠
        dslHash (DescriptorSetLayoutCreateInfo.mk [DSLBinding.mk 0 1 3 17 0] 0) ∧
      (cacheCreate
          (cacheCreate [] (DescriptorSetLayoutCreateInfo.mk [] 0) 0).2.1
          (DescriptorSetLayoutCreateInfo.mk [DSLBinding.mk 0 1 3 17 0] 0)
          (cacheCreate [] (DescriptorSetLayoutCreateInfo.mk [] 0) 0).2.2).1 ≠
        (cacheCreate [] (DescriptorSetLayoutCreateInfo.mk [] 0) 0).1 := by
  refine ⟨by decide, by decide, by decide, by decide⟩

end gvu
